import Mathlib

/-!
Shallow embedding of the EcoCue carbon estimator and dashboard
(`script.js` single-session calculator, dashboard script bundled with
`service-worker.js`).

Modelling conventions:
* JavaScript numbers are modelled as `Option ℚ`: `some q` is a finite
  value represented exactly, `none` stands for a non-finite result
  (`NaN` or an infinity).  All arithmetic appearing in the sources is
  wrapped in `js`-prefixed helpers that propagate `none` the way JS
  propagates non-finite values at the points the sources use them.
* JavaScript objects used as accumulators (`deptTotals`, `catTotals`,
  `monthlyTotals`, parsed CSV rows) are modelled as association lists in
  key-insertion order, matching JS property enumeration order for the
  non-numeric string keys the dashboard uses.
* The host date parser behind `new Date(string)` is host-dependent, so
  the CSV parser is parameterised by it (`pd : String → Option Date`);
  `parseDateISO` below instantiates it with the ECMAScript-mandated
  ISO `YYYY-MM-DD` date-only path for concrete evaluations.
-/

namespace EcoCue

/-- A JavaScript number: `some q` is a finite value (exact rational),
`none` is a non-finite value (`NaN` or `±Infinity`). -/
abbrev JsNum := Option ℚ

/-- JS addition as used by the accumulation loops: any non-finite
operand makes the sum non-finite. -/
def jsAdd (a b : JsNum) : JsNum :=
  match a, b with
  | some x, some y => some (x + y)
  | _, _ => none

/-- JS multiplication of a finite factor with a possibly non-finite
amount (`factor * rec.amount`): `0 * NaN = NaN`, so `none` propagates. -/
def jsMulF (f : ℚ) (a : JsNum) : JsNum :=
  a.map (fun x => f * x)

/-- JS division `val / total`: any zero divisor yields a non-finite
value (`0/0 = NaN`, `q/0 = ±Infinity`), modelled as `none`. -/
def jsDiv (a b : JsNum) : JsNum :=
  match a, b with
  | some x, some y => if y = 0 then none else some (x / y)
  | _, _ => none

/-- Multiplication by the finite literal `100` in `(val / total) * 100`. -/
def jsMulC (a : JsNum) (c : ℚ) : JsNum :=
  a.map (fun x => x * c)

/-- Calendar date as produced by the host date parser, restricted to the
fields the dashboard reads (`getFullYear()`, `getMonth() + 1`,
`getDate()`).  `month` is 1-based. -/
structure Date where
  year : Nat
  month : Nat
  day : Nat
deriving DecidableEq

/-- Chronological order on valid dates, the order computed by the
`(a, b) => a.date - b.date` comparator on epoch values. -/
def Date.ltb (a b : Date) : Bool :=
  if a.year = b.year then
    (if a.month = b.month then decide (a.day < b.day) else decide (a.month < b.month))
  else decide (a.year < b.year)

/-- One parsed activity record.  `emission` is `none` (undefined) until
`processData` computes it. -/
structure Rec where
  date : Date
  department : String
  category : String
  amount : JsNum
  emission : JsNum
deriving DecidableEq

namespace Script

/-- `EMISSION_FACTORS` of `script.js` (per-km transport factors of the
single-session calculator). -/
def EMISSION_FACTORS : List (String × ℚ) :=
  [("car", 0.18), ("bus", 0.11), ("train", 0.04), ("flight", 0.46)]

/-- `ELECTRICITY_FACTOR` of `script.js`. -/
def ELECTRICITY_FACTOR : ℚ := 0.82

/-- `MEAT_MEAL_FACTOR` of `script.js`. -/
def MEAT_MEAL_FACTOR : ℚ := 15

/-- The `details` object of a persisted calculation. -/
structure Details where
  transport : ℚ
  electricity : ℚ
  meat : ℚ
deriving DecidableEq

/-- A persisted `CalculationEntry`: `{date: Date.now(), total, details}`. -/
structure Entry where
  date : Nat
  total : ℚ
  details : Details
deriving DecidableEq

/-- Outcome of `JSON.parse` on a stored blob, as consumed by
`loadHistory`/`saveResult`: a parsed array of entries, a falsy value
(so `|| []` applies), or a thrown exception (so the `catch` applies).
The host JSON parser is a parameter of the model. -/
inductive HistParse where
  | arr (l : List Entry)
  | nullv
  | err
deriving DecidableEq

/-- The history list obtained by
`JSON.parse(localStorage.getItem('carbonHistory')) || []` inside a
`try`/`catch` that falls back to `[]`.  `storage = none` models an
absent key: `getItem` returns `null` and `JSON.parse(null) = null`,
which is falsy. -/
def loadHistoryList (jp : String → HistParse) (storage : Option String) : List Entry :=
  match storage with
  | none => []
  | some s =>
    match jp s with
    | .arr l => l
    | .nullv => []
    | .err => []

/-- User-visible effect of `saveResult`. -/
inductive SaveEffect where
  | promptCalcFirst
  | saved
deriving DecidableEq

/-- `saveResult`: with no pending calculation
(`resultsDiv.dataset.result` unset) it alerts
'Please calculate your emissions first.' and returns with storage
untouched; otherwise it reloads the stored history, pushes the pending
entry and writes the serialized list back.  `stringify` is the host
`JSON.stringify`. -/
def saveResult (stringify : List Entry → String) (jp : String → HistParse)
    (pending : Option Entry) (storage : Option String) : SaveEffect × Option String :=
  match pending with
  | none => (.promptCalcFirst, storage)
  | some e => (.saved, some (stringify (loadHistoryList jp storage ++ [e])))

end Script

namespace Dashboard

/-- `EMISSION_FACTORS` of the dashboard script (CSV pipeline). -/
def EMISSION_FACTORS : List (String × ℚ) :=
  [("electricity", 0.82), ("transport_car", 0.17067), ("transport_bus", 0.11),
   ("transport_train", 0.04), ("transport_flight", 0.46), ("waste", 1.0)]

/-- `text.trim().split(/\r?\n/)`: split on `'\n'`, additionally
stripping one carriage return immediately preceding each newline. -/
def splitLines (s : String) : List String :=
  (s.split (fun c => c == '\n')).map
    (fun part => if part.endsWith "\r" then part.dropRight 1 else part)

/-- `lines[0].split(',').map(h => h.trim().toLowerCase())`. -/
def headerKeys (line : String) : List String :=
  (line.split (fun c => c == ',')).map (fun h => h.trim.toLower)

/-- `header.forEach((key, idx) => { record[key] = values[idx] ? values[idx].trim() : ''; })`:
a missing or empty cell yields `''`, and `''.trim() = ''`, so the value
at index `idx` is `(values[idx] ?? '').trim()`. -/
def buildFields (hdr values : List String) : List (String × String) :=
  hdr.enum.map (fun p => (p.2, (values.getD p.1 "").trim))

/-- Property read `record[k]` on the object built by the sequential
assignments of `buildFields`: the last assignment to a key wins;
an unassigned key reads as `undefined` (`none`). -/
def objGet (fields : List (String × String)) (k : String) : Option String :=
  fields.foldl (fun acc p => if p.1 = k then some p.2 else acc) none

/-- Numeric value of a list of decimal digit characters. -/
def digitsToNat (l : List Char) : Nat :=
  l.foldl (fun n c => 10 * n + (c.toNat - 48)) 0

/-- ECMAScript `parseFloat`: skip leading whitespace, then parse the
longest prefix of the form `[+-]? digits [. digits] [(e|E) [+-] digits]`;
no digits at all yields `NaN` (`none`).  (The non-finite `Infinity`
literal is likewise modelled as `none`.) -/
def jsParseFloat (s : String) : JsNum :=
  let l := s.data.dropWhile (fun c => c.isWhitespace)
  let sgn : ℚ × List Char :=
    match l with
    | '-' :: rest => (-1, rest)
    | '+' :: rest => (1, rest)
    | _ => (1, l)
  let intPart := sgn.2.takeWhile Char.isDigit
  let l2 := sgn.2.dropWhile Char.isDigit
  let fracState : List Char × List Char :=
    match l2 with
    | '.' :: rest => (rest.takeWhile Char.isDigit, rest.dropWhile Char.isDigit)
    | _ => ([], l2)
  if intPart = [] ∧ fracState.1 = [] then none
  else
    let mantissa : ℚ :=
      (digitsToNat intPart : ℚ) + (digitsToNat fracState.1 : ℚ) / ((10 : ℚ) ^ fracState.1.length)
    let exp : Int :=
      match fracState.2 with
      | e :: rest =>
        if e = 'e' ∨ e = 'E' then
          let esgn : Int × List Char :=
            match rest with
            | '-' :: r => (-1, r)
            | '+' :: r => (1, r)
            | _ => (1, rest)
          let ed := esgn.2.takeWhile Char.isDigit
          if ed = [] then 0 else esgn.1 * (digitsToNat ed : Int)
        else 0
      | [] => 0
    some (sgn.1 * mantissa * (10 : ℚ) ^ exp)

/-- Gregorian leap year. -/
def isLeap (y : Nat) : Bool :=
  decide ((y % 4 = 0 ∧ ¬y % 100 = 0) ∨ y % 400 = 0)

/-- Days in a month of the Gregorian calendar. -/
def daysInMonth (y m : Nat) : Nat :=
  if m = 2 then (if isLeap y then 29 else 28)
  else if m = 4 ∨ m = 6 ∨ m = 9 ∨ m = 11 then 30
  else 31

/-- Modelled from the spec: the date format accepted by
`new Date(string)` is host-dependent (spec §6), so the parser is
parameterised over it; this definition instantiates it with the
ECMAScript-mandated ISO `YYYY-MM-DD` date-only form, rejecting
out-of-range calendar components, for concrete evaluations. -/
def parseDateISO (s : String) : Option Date :=
  match s.split (fun c => c == '-') with
  | [ys, ms, ds] =>
    if ys.length = 4 ∧ ms.length = 2 ∧ ds.length = 2
        ∧ ys.data.all Char.isDigit ∧ ms.data.all Char.isDigit ∧ ds.data.all Char.isDigit then
      let y := digitsToNat ys.data
      let m := digitsToNat ms.data
      let d := digitsToNat ds.data
      if 1 ≤ m ∧ m ≤ 12 ∧ 1 ≤ d ∧ d ≤ daysInMonth y m then some ⟨y, m, d⟩ else none
    else none
  | _ => none

/-- One data line of `parseCSV`.  `.ok none` models a skipped line
(blank, `#` comment, undefined or unparsable date), `.ok (some r)` an
accepted record, and `.error ()` the `TypeError` the code throws when
the header has no `category` column but the line passes the date check
(`record.category.toLowerCase()` on `undefined`).  An absent
`department` column makes the later object-key use coerce `undefined`
to the string `"undefined"`. -/
def parseLine (pd : String → Option Date) (hdr : List String) (line : String) :
    Except Unit (Option Rec) :=
  if line = "" ∨ line.startsWith "#" then .ok none
  else
    let fields := buildFields hdr (line.split (fun c => c == ','))
    let dateOpt : Option Date :=
      match objGet fields "date" with
      | none => none
      | some s => pd s
    match dateOpt with
    | none => .ok none
    | some d =>
      match objGet fields "category" with
      | none => .error ()
      | some c =>
        .ok (some
          { date := d
            department := (objGet fields "department").getD "undefined"
            category := c.toLower
            amount :=
              match objGet fields "amount" with
              | none => none
              | some a => jsParseFloat a
            emission := none })

/-- The data-line loop of `parseCSV` (`for (let i = 1; ...)`). -/
def parseRows (pd : String → Option Date) (hdr : List String) :
    List String → Except Unit (List Rec)
  | [] => .ok []
  | l :: ls =>
    match parseLine pd hdr l with
    | .error e => .error e
    | .ok r? =>
      match parseRows pd hdr ls with
      | .error e => .error e
      | .ok rest => .ok (match r? with | some r => r :: rest | none => rest)

/-- `parseCSV` on the already-split line list: fewer than two lines
yields no records; otherwise the first line is always consumed as the
header and the remaining lines are data lines. -/
def parseCSVlines (pd : String → Option Date) (lines : List String) :
    Except Unit (List Rec) :=
  match lines with
  | [] => .ok []
  | h :: rest =>
    if rest = [] then .ok []
    else parseRows pd (headerKeys h) rest

/-- `parseCSV(text)`. -/
def parseCSV (pd : String → Option Date) (text : String) : Except Unit (List Rec) :=
  parseCSVlines pd (splitLines text.trim)

/-- `EMISSION_FACTORS[rec.category] || 0`: every factor in the table is
nonzero and truthy, so `|| 0` only turns an absent key into `0`. -/
def factorOf (cat : String) : ℚ :=
  (List.lookup cat EMISSION_FACTORS).getD 0

/-- `rec.emission = factor * rec.amount`. -/
def computeEmission (r : Rec) : Rec :=
  { r with emission := jsMulF (factorOf r.category) r.amount }

/-- Insertion step of the stable ascending-by-date sort. -/
def insertByDate (x : Rec) : List Rec → List Rec
  | [] => [x]
  | y :: ys => if Date.ltb y.date x.date then y :: insertByDate x ys else x :: y :: ys

/-- `activityData.sort((a, b) => a.date - b.date)`: ECMAScript sort is
stable, and on a consistent comparator every stable sort yields the
same list, here modelled as a stable insertion sort. -/
def sortByDate : List Rec → List Rec
  | [] => []
  | x :: xs => insertByDate x (sortByDate xs)

/-- `processData`: compute each record's emission, then sort by date. -/
def processData (recs : List Rec) : List Rec :=
  sortByDate (recs.map computeEmission)

/-- JS truthiness of an accumulator value: `undefined`, `NaN` and `0`
are falsy. -/
def falsy (v : JsNum) : Bool :=
  match v with
  | none => true
  | some q => decide (q = 0)

/-- One accumulation step
`if (!m[k]) m[k] = 0; m[k] += v` (renderSummary), equivalently
`m[k] = (m[k] || 0) + v` (renderBarCharts/renderAnalysis): a falsy
current value is replaced by `0` before adding.  An absent key is
appended, preserving property insertion order. -/
def updateTotals : List (String × JsNum) → String → JsNum → List (String × JsNum)
  | [], k, v => [(k, jsAdd (some 0) v)]
  | (k', w) :: rest, k, v =>
    if k' = k then (k', jsAdd (if falsy w then some 0 else w) v) :: rest
    else (k', w) :: updateTotals rest k v

/-- Per-department totals of `renderSummary`. -/
def deptTotals (recs : List Rec) : List (String × JsNum) :=
  recs.foldl (fun m r => updateTotals m r.department r.emission) []

/-- Per-category totals of `renderSummary`/`renderAnalysis`. -/
def catTotals (recs : List Rec) : List (String × JsNum) :=
  recs.foldl (fun m r => updateTotals m r.category r.emission) []

/-- `Object.values(m).reduce((a, b) => a + b, 0)`. -/
def sumValues (m : List (String × JsNum)) : JsNum :=
  m.foldl (fun s p => jsAdd s p.2) (some 0)

/-- `activityData.reduce((sum, rec) => sum + rec.emission, 0)`. -/
def totalOf (recs : List Rec) : JsNum :=
  recs.foldl (fun s r => jsAdd s r.emission) (some 0)

/-- The comparator `(a, b) => b[1] - a[1]` orders `a` strictly before
`b` exactly when `a`'s value exceeds `b`'s; a `NaN` difference is
treated as `0` (unordered) by ECMAScript sort. -/
def jsGt (a b : JsNum) : Bool :=
  match a, b with
  | some x, some y => decide (y < x)
  | _, _ => false

/-- Insertion step of the stable descending-by-value sort. -/
def insertEntryDesc (x : String × JsNum) :
    List (String × JsNum) → List (String × JsNum)
  | [] => [x]
  | y :: ys => if jsGt y.2 x.2 then y :: insertEntryDesc x ys else x :: y :: ys

/-- `Object.entries(m).sort((a, b) => b[1] - a[1])`: stable descending
sort by value, modelled as a stable insertion sort. -/
def sortEntriesDesc : List (String × JsNum) → List (String × JsNum)
  | [] => []
  | x :: xs => insertEntryDesc x (sortEntriesDesc xs)

/-- `Object.entries(deptTotals).sort((a, b) => b[1] - a[1])[0]`. -/
def topDept (recs : List Rec) : Option (String × JsNum) :=
  (sortEntriesDesc (deptTotals recs)).head?

/-- `Object.entries(catTotals).sort((a, b) => b[1] - a[1])[0]`. -/
def topCat (recs : List Rec) : Option (String × JsNum) :=
  (sortEntriesDesc (catTotals recs)).head?

/-- `String(x).padStart(2, '0')`. -/
def pad2 (s : String) : String :=
  if s.length < 2 then String.pushn "" '0' (2 - s.length) ++ s else s

/-- `rec.date.getFullYear() + '-' + String(rec.date.getMonth() + 1).padStart(2, '0')`
(our `Date.month` is already the 1-based `getMonth() + 1`). -/
def monthKey (d : Date) : String :=
  toString d.year ++ "-" ++ pad2 (toString d.month)

/-- Per-month totals of `renderTrendChart`. -/
def monthlyTotals (recs : List Rec) : List (String × JsNum) :=
  recs.foldl (fun m r => updateTotals m (monthKey r.date) r.emission) []

/-- ECMAScript string `<`: lexicographic comparison of code units
(compared via their numeric value). -/
def charsLt : List Char → List Char → Bool
  | [], [] => false
  | [], _ :: _ => true
  | _ :: _, [] => false
  | a :: l1, b :: l2 =>
    if a.toNat < b.toNat then true
    else if b.toNat < a.toNat then false
    else charsLt l1 l2

/-- ECMAScript default sort comparator on strings. -/
def jsStrLt (s t : String) : Bool :=
  charsLt s.data t.data

/-- Insertion step of the ascending string sort. -/
def insertStr (x : String) : List String → List String
  | [] => [x]
  | y :: ys => if jsStrLt y x then y :: insertStr x ys else x :: y :: ys

/-- `Object.keys(monthlyTotals).sort()`: default ascending sort. -/
def sortStrings : List String → List String
  | [] => []
  | x :: xs => insertStr x (sortStrings xs)

/-- `Object.keys` of an accumulator object, in insertion order. -/
def keysOf (m : List (String × JsNum)) : List String :=
  m.map Prod.fst

/-- The month labels of the trend chart, in emitted order. -/
def trendLabels (recs : List Rec) : List String :=
  sortStrings (keysOf (monthlyTotals recs))

/-- `(val / total) * 100`. -/
def shareOf (v total : JsNum) : JsNum :=
  jsMulC (jsDiv v total) 100

/-- `generateCue`: the fixed advisory lookup, with the generic default
for unknown categories. -/
def generateCue (cat : String) : String :=
  match cat with
  | "electricity" => "High electricity emissions indicate opportunities for energy efficiency. Consider upgrading to LED lighting, optimising HVAC systems, and sourcing renewable electricity where possible."
  | "transport_car" => "Car travel is a significant emitter. Encourage carpooling, promote public transport or EV options, and optimise routes to reduce distance travelled."
  | "transport_bus" => "Bus travel emits less per kilometre than cars but emissions can still be lowered by switching to electric or hybrid buses and optimising schedules."
  | "transport_train" => "Train travel is relatively low-carbon. Promote its use over flights or cars for inter-city trips to cut emissions further."
  | "transport_flight" => "Flights have very high emissions. Evaluate if trips can be replaced by virtual meetings or train travel, and offset necessary flights through verified programmes."
  | "waste" => "Waste-related emissions suggest opportunities in waste reduction, recycling and composting. Audit waste streams and engage suppliers to reduce packaging."
  | _ => "Explore opportunities to reduce emissions in this category by analysing operations and engaging stakeholders."

/-- `renderAnalysis`: recompute category totals, total them, sort the
entries descending by value and emit `(category, share, cue)` items. -/
def renderAnalysis (recs : List Rec) : List (String × JsNum × String) :=
  let ct := catTotals recs
  let total := sumValues ct
  (sortEntriesDesc ct).map (fun p => (p.1, shareOf p.2 total, generateCue p.1))

end Dashboard

/-! Verification helpers: reference models written from the spec's words
(for refinement comparisons), properties, and concrete datasets. -/

/-- Sum of a list of JS numbers (helper for reasoning about the
accumulation folds). -/
def jsSum (l : List JsNum) : JsNum :=
  l.foldl jsAdd (some 0)

/-- All values of an accumulator are finite. -/
def finiteVals (m : List (String × JsNum)) : Prop :=
  ∀ p ∈ m, p.2 ≠ none

/-- Per-key value of an accumulator, reading an absent key as a zero
total (helper for stating per-key contribution). -/
def getValD (m : List (String × JsNum)) (k : String) : JsNum :=
  (List.lookup k m).getD (some 0)

/-- `l` is a stable descending-by-value sort of `m`: sorted so that no
later entry has a strictly larger value, a permutation of `m`, and
value-for-value in the original (first-encounter) order. -/
def StableDescSorted (l m : List (String × JsNum)) : Prop :=
  l.Pairwise (fun a b => Dashboard.jsGt b.2 a.2 = false) ∧
  l.Perm m ∧
  ∀ v : JsNum, l.filter (fun p => decide (p.2 = v)) = m.filter (fun p => decide (p.2 = v))

/-- Modelled from the spec: "ties broken by ascending alphabetical key
for reproducibility" — the comparator placing `a` strictly before `b`
when its value is larger, or equal with alphabetically smaller key. -/
def specAlphaBefore (a b : String × JsNum) : Bool :=
  Dashboard.jsGt a.2 b.2 || (decide (a.2 = b.2) && Dashboard.jsStrLt a.1 b.1)

/-- Modelled from the spec: insertion step of the descending sort with
alphabetical tie-break. -/
def insertEntryAlpha (x : String × JsNum) :
    List (String × JsNum) → List (String × JsNum)
  | [] => [x]
  | y :: ys => if specAlphaBefore y x then y :: insertEntryAlpha x ys else x :: y :: ys

/-- Modelled from the spec: descending sort with alphabetical
tie-break. -/
def sortEntriesAlpha : List (String × JsNum) → List (String × JsNum)
  | [] => []
  | x :: xs => insertEntryAlpha x (sortEntriesAlpha xs)

/-- Modelled from the spec: the top category under the spec's
alphabetical tie-break rule. -/
def topCatAlpha (recs : List Rec) : Option (String × JsNum) :=
  (sortEntriesAlpha (Dashboard.catTotals recs)).head?

/-- Modelled from the spec: the guarded share computation of §4.3
("`0` total ⇒ all shares undefined/zero, guarded"), reading
"undefined/zero" as the guarded zero share. -/
def shareGuardedSpec (v total : JsNum) : JsNum :=
  if total = some 0 then some 0 else jsMulC (jsDiv v total) 100

/-- Modelled from the spec: `renderAnalysis` with the guarded share of
§4.3 instead of the unguarded division. -/
def renderAnalysisGuarded (recs : List Rec) : List (String × JsNum × String) :=
  let ct := Dashboard.catTotals recs
  let total := Dashboard.sumValues ct
  (Dashboard.sortEntriesDesc ct).map
    (fun p => (p.1, shareGuardedSpec p.2 total, Dashboard.generateCue p.1))

/-- The `record.date` field value (`record[k]` for `k = "date"`) of a
data line under a given header. -/
def dateFieldOf (hdr : List String) (line : String) : Option String :=
  Dashboard.objGet (Dashboard.buildFields hdr (line.split (fun c => c == ','))) "date"

/-- The spec §8 example rows, before `processData`. -/
def sampleRaw : List Rec :=
  [⟨⟨2024, 1, 5⟩, "Ops", "electricity", some 100, none⟩,
   ⟨⟨2024, 1, 6⟩, "Ops", "transport_car", some 50, none⟩]

/-- The spec §8 example rows, processed. -/
def sampleRecs : List Rec :=
  Dashboard.processData sampleRaw

/-- Two rows with equal summed emissions (`waste: 1.0 × 1` and
`transport_train: 0.04 × 25`) whose first-encountered category is
alphabetically later, before `processData`. -/
def tieRaw : List Rec :=
  [⟨⟨2024, 1, 1⟩, "Ops", "waste", some 1, none⟩,
   ⟨⟨2024, 1, 2⟩, "Ops", "transport_train", some 25, none⟩]

/-- The tie dataset, processed. -/
def tieRecs : List Rec :=
  Dashboard.processData tieRaw

/-- A single row with a category unknown to the factor table, so the
dataset's total emission is `0`, before `processData`. -/
def zeroRaw : List Rec :=
  [⟨⟨2024, 1, 3⟩, "HR", "plastics", some 5, none⟩]

/-- The zero-total dataset, processed. -/
def zeroRecs : List Rec :=
  Dashboard.processData zeroRaw

/-- A concrete calculation entry for history-store witnesses. -/
def entryA : Script.Entry :=
  ⟨0, 12, ⟨5, 4, 3⟩⟩

/-- Structural model of the decimal digit characters of a natural
number (most significant first), used to reason about the fuel-based
`Nat.toDigits` behind `toString`. -/
def natChars (n : Nat) : List Char :=
  if n < 10 then [Nat.digitChar n]
  else natChars (n / 10) ++ [Nat.digitChar (n % 10)]
decreasing_by exact Nat.div_lt_self (by omega) (by omega)

/-- C6: the emission factor constants are exactly: electricity `0.82`,
bus `0.11`, train `0.04`, flight `0.46`, waste `1.0`, meat meal `15`,
and car appears as the two constants `0.18` (single-session calculator)
and `0.17067` (CSV dashboard). -/
theorem c6_emission_factor_constants :
    Script.EMISSION_FACTORS =
      [("car", 18 / 100), ("bus", 11 / 100), ("train", 4 / 100), ("flight", 46 / 100)] ∧
    Script.ELECTRICITY_FACTOR = 82 / 100 ∧
    Script.MEAT_MEAL_FACTOR = 15 ∧
    Dashboard.EMISSION_FACTORS =
      [("electricity", 82 / 100), ("transport_car", 17067 / 100000),
       ("transport_bus", 11 / 100), ("transport_train", 4 / 100),
       ("transport_flight", 46 / 100), ("waste", 1)] ∧
    List.lookup "car" Script.EMISSION_FACTORS = some (18 / 100) ∧
    List.lookup "transport_car" Dashboard.EMISSION_FACTORS = some (17067 / 100000) := by
  refine ⟨?_, ?_, ?_, ?_, ?_, ?_⟩ <;>
    · norm_num [Script.EMISSION_FACTORS, Script.ELECTRICITY_FACTOR, Script.MEAT_MEAL_FACTOR,
        Dashboard.EMISSION_FACTORS, List.lookup]
      try rfl

open Dashboard in
theorem jsAdd_comm (a b : JsNum) : jsAdd a b = jsAdd b a := by
  cases a <;> cases b <;> simp [jsAdd] <;> ring

theorem jsAdd_assoc (a b c : JsNum) : jsAdd (jsAdd a b) c = jsAdd a (jsAdd b c) := by
  cases a <;> cases b <;> cases c <;> simp [jsAdd] <;> ring

theorem jsAdd_zero_left (a : JsNum) : jsAdd (some 0) a = a := by
  cases a <;> simp [jsAdd]

theorem jsAdd_zero_right (a : JsNum) : jsAdd a (some 0) = a := by
  cases a <;> simp [jsAdd]

theorem foldl_jsAdd_acc (l : List JsNum) : ∀ a, l.foldl jsAdd a = jsAdd a (jsSum l) := by
  induction l with
  | nil => intro a; simp [jsSum, jsAdd_zero_right]
  | cons v l ih =>
    intro a
    have hsum : jsSum (v :: l) = jsAdd v (jsSum l) := by
      simp only [jsSum, List.foldl_cons, jsAdd_zero_left]
      exact ih v
    simp only [List.foldl_cons, hsum, ih (jsAdd a v), jsAdd_assoc]

theorem jsSum_cons (v : JsNum) (l : List JsNum) : jsSum (v :: l) = jsAdd v (jsSum l) := by
  simp only [jsSum, List.foldl_cons, jsAdd_zero_left]
  exact foldl_jsAdd_acc l v

open Dashboard in
theorem totalOf_eq_jsSum (recs : List Rec) :
    totalOf recs = jsSum (recs.map (fun r => r.emission)) := by
  simp [totalOf, jsSum, List.foldl_map]

open Dashboard in
theorem sumValues_eq_jsSum (m : List (String × JsNum)) :
    sumValues m = jsSum (m.map Prod.snd) := by
  simp [sumValues, jsSum, List.foldl_map]

open Dashboard in
theorem sumValues_cons (p : String × JsNum) (m : List (String × JsNum)) :
    sumValues (p :: m) = jsAdd p.2 (sumValues m) := by
  simp [sumValues_eq_jsSum, jsSum_cons]

open Dashboard in
theorem updateTotals_sumValues (m : List (String × JsNum)) (k : String) (v : JsNum)
    (h : finiteVals m) :
    sumValues (updateTotals m k v) = jsAdd (sumValues m) v := by
  induction m with
  | nil =>
    simp [updateTotals, sumValues, jsAdd_zero_left]
  | cons p rest ih =>
    obtain ⟨k', w⟩ := p
    have hw : w ≠ none := h (k', w) (by simp)
    have hrest : finiteVals rest := fun q hq => h q (by simp [hq])
    by_cases hk : k' = k
    · have hval : jsAdd (if falsy w then some 0 else w) v = jsAdd w v := by
        by_cases hf : falsy w = true
        · obtain ⟨q, rfl⟩ := Option.ne_none_iff_exists'.mp hw
          have : q = 0 := by simpa [falsy] using hf
          simp [hf, this]
        · simp [eq_false_of_ne_true hf]
      simp only [updateTotals, if_pos hk, hval, sumValues_cons]
      rw [jsAdd_assoc, jsAdd_comm v (sumValues rest), ← jsAdd_assoc]
    · simp only [updateTotals, if_neg hk, sumValues_cons, ih hrest]
      rw [← jsAdd_assoc]

open Dashboard in
theorem updateTotals_finiteVals (m : List (String × JsNum)) (k : String) (v : JsNum)
    (h : finiteVals m) (hv : v ≠ none) : finiteVals (updateTotals m k v) := by
  obtain ⟨qv, rfl⟩ := Option.ne_none_iff_exists'.mp hv
  induction m with
  | nil =>
    intro p hp
    simp only [updateTotals, List.mem_singleton] at hp
    subst hp
    simp [jsAdd]
  | cons p rest ih =>
    obtain ⟨k', w⟩ := p
    have hw : w ≠ none := h (k', w) (by simp)
    obtain ⟨qw, rfl⟩ := Option.ne_none_iff_exists'.mp hw
    have hrest : finiteVals rest := fun q hq => h q (by simp [hq])
    intro p hp
    by_cases hk : k' = k
    · simp only [updateTotals, if_pos hk, List.mem_cons] at hp
      rcases hp with rfl | hp
      · by_cases hf : falsy (some qw) = true <;> simp [hf, jsAdd]
      · exact hrest p hp
    · simp only [updateTotals, if_neg hk, List.mem_cons] at hp
      rcases hp with rfl | hp
      · simp
      · exact ih hrest p hp

open Dashboard in
theorem foldTotals_sumValues (key : Rec → String) (recs : List Rec) :
    ∀ m : List (String × JsNum), finiteVals m → (∀ r ∈ recs, r.emission ≠ none) →
      sumValues (recs.foldl (fun acc r => updateTotals acc (key r) r.emission) m)
        = jsAdd (sumValues m) (jsSum (recs.map (fun r => r.emission))) := by
  induction recs with
  | nil => intro m hm _; simp [jsSum, jsAdd_zero_right]
  | cons r recs ih =>
    intro m hm hfin
    have hr : r.emission ≠ none := hfin r (by simp)
    have hrecs : ∀ s ∈ recs, s.emission ≠ none := fun s hs => hfin s (by simp [hs])
    simp only [List.foldl_cons, List.map_cons, jsSum_cons]
    rw [ih (updateTotals m (key r) r.emission)
        (updateTotals_finiteVals m (key r) r.emission hm hr) hrecs,
      updateTotals_sumValues m (key r) r.emission hm, jsAdd_assoc]

/-- C1: for every dataset of records with finite emissions (every
amount parsed to a number), the sum of the per-category aggregate
values equals the total emission, and so does the sum of the
per-department aggregate values. -/
theorem c1_aggregate_sums_agree (recs : List Rec) (h : ∀ r ∈ recs, r.emission ≠ none) :
    Dashboard.sumValues (Dashboard.catTotals recs) = Dashboard.totalOf recs ∧
    Dashboard.sumValues (Dashboard.deptTotals recs) = Dashboard.totalOf recs := by
  constructor
  · have := foldTotals_sumValues (fun r => r.category) recs [] (by intro p hp; cases hp) h
    simpa [Dashboard.catTotals, totalOf_eq_jsSum, Dashboard.sumValues, jsSum,
      jsAdd_zero_left] using this
  · have := foldTotals_sumValues (fun r => r.department) recs [] (by intro p hp; cases hp) h
    simpa [Dashboard.deptTotals, totalOf_eq_jsSum, Dashboard.sumValues, jsSum,
      jsAdd_zero_left] using this

/-- Witness for C1 on the spec §8 example dataset. -/
theorem c1_aggregate_sums_agree_witness :
    (∀ r ∈ sampleRecs, r.emission ≠ none) ∧
    Dashboard.sumValues (Dashboard.catTotals sampleRecs) = Dashboard.totalOf sampleRecs ∧
    Dashboard.sumValues (Dashboard.deptTotals sampleRecs) = Dashboard.totalOf sampleRecs :=
  ⟨by with_unfolding_all decide,
   (c1_aggregate_sums_agree sampleRecs (by with_unfolding_all decide)).1,
   (c1_aggregate_sums_agree sampleRecs (by with_unfolding_all decide)).2⟩

open Dashboard in
theorem parseRows_drop_skipped (pd : String → Option Date) (hdr : List String)
    (pre post : List String) (line : String) (hline : parseLine pd hdr line = .ok none) :
    parseRows pd hdr (pre ++ line :: post) = parseRows pd hdr (pre ++ post) := by
  induction pre with
  | nil =>
    simp only [List.nil_append, parseRows, hline]
    cases parseRows pd hdr post <;> rfl
  | cons p pre ih =>
    simp only [List.cons_append, parseRows, List.append_eq, ih]

/-- C4: a data line whose date field is undefined or fails to parse
into a valid calendar date is silently dropped: it produces no record,
and the parse result on the surrounding lines is exactly the parse
result without that line (so it is excluded from every aggregate and
leaves the total emission unchanged). -/
theorem c4_invalid_date_line_dropped (pd : String → Option Date) (hdr : List String)
    (pre post : List String) (line : String)
    (h : (dateFieldOf hdr line).bind pd = none) :
    Dashboard.parseLine pd hdr line = .ok none ∧
    Dashboard.parseRows pd hdr (pre ++ line :: post) = Dashboard.parseRows pd hdr (pre ++ post) := by
  have hline : Dashboard.parseLine pd hdr line = .ok none := by
    unfold Dashboard.parseLine
    by_cases hskip : (line = "" ∨ line.startsWith "#" = true)
    · simp [hskip]
    · simp only [if_neg hskip]
      unfold dateFieldOf at h
      cases hob : Dashboard.objGet
          (Dashboard.buildFields hdr (line.split (fun c => c == ','))) "date" with
      | none => simp [hob]
      | some s =>
        rw [hob] at h
        simp only [Option.some_bind] at h
        simp [hob, h]
  exact ⟨hline, parseRows_drop_skipped pd hdr pre post line hline⟩

/-- Witness for C4: a row with month 13 is dropped by the ISO parser. -/
theorem c4_invalid_date_line_dropped_witness :
    ((dateFieldOf (Dashboard.headerKeys "date,department,category,unit,amount")
        "2024-13-99,Ops,waste,kg,2").bind Dashboard.parseDateISO = none) ∧
    Dashboard.parseLine Dashboard.parseDateISO
        (Dashboard.headerKeys "date,department,category,unit,amount")
        "2024-13-99,Ops,waste,kg,2" = .ok none ∧
    Dashboard.parseRows Dashboard.parseDateISO
        (Dashboard.headerKeys "date,department,category,unit,amount")
        (["2024-01-01,Ops,waste,kg,1"] ++ "2024-13-99,Ops,waste,kg,2" :: []) =
      Dashboard.parseRows Dashboard.parseDateISO
        (Dashboard.headerKeys "date,department,category,unit,amount")
        (["2024-01-01,Ops,waste,kg,1"] ++ []) :=
  ⟨by with_unfolding_all decide,
   (c4_invalid_date_line_dropped Dashboard.parseDateISO
      (Dashboard.headerKeys "date,department,category,unit,amount")
      ["2024-01-01,Ops,waste,kg,1"] [] "2024-13-99,Ops,waste,kg,2"
      (by with_unfolding_all decide)).1,
   (c4_invalid_date_line_dropped Dashboard.parseDateISO
      (Dashboard.headerKeys "date,department,category,unit,amount")
      ["2024-01-01,Ops,waste,kg,1"] [] "2024-13-99,Ops,waste,kg,2"
      (by with_unfolding_all decide)).2⟩

/-- C10: when the first line of the (trimmed) input begins with `#`,
the parser still consumes it as the header row — the records are built
with the comment text's comma-split, trimmed, lowercased fields as
column names — while the same line in data position would be skipped:
the comment rule applies only to data lines after the header. -/
theorem c10_comment_header_consumed (pd : String → Option Date) (h : String)
    (rest : List String) (hdr : List String)
    (hh : h.startsWith "#" = true) (hrest : rest ≠ []) :
    Dashboard.parseCSVlines pd (h :: rest) =
      Dashboard.parseRows pd (Dashboard.headerKeys h) rest ∧
    Dashboard.parseLine pd hdr h = .ok none := by
  constructor
  · simp only [Dashboard.parseCSVlines, if_neg hrest]
  · unfold Dashboard.parseLine
    simp [hh]

/-- Witness for C10 on a concrete comment-first input. -/
theorem c10_comment_header_consumed_witness :
    ("#date,department,category,unit,amount".startsWith "#" = true) ∧
    (["2024-01-01,Ops,waste,kg,1"] ≠ ([] : List String)) ∧
    Dashboard.parseCSVlines Dashboard.parseDateISO
        ("#date,department,category,unit,amount" :: ["2024-01-01,Ops,waste,kg,1"]) =
      Dashboard.parseRows Dashboard.parseDateISO
        (Dashboard.headerKeys "#date,department,category,unit,amount")
        ["2024-01-01,Ops,waste,kg,1"] ∧
    Dashboard.parseLine Dashboard.parseDateISO
        (Dashboard.headerKeys "date,department,category,unit,amount")
        "#date,department,category,unit,amount" = .ok none :=
  ⟨by with_unfolding_all decide, by with_unfolding_all decide,
   (c10_comment_header_consumed Dashboard.parseDateISO
      "#date,department,category,unit,amount" ["2024-01-01,Ops,waste,kg,1"]
      (Dashboard.headerKeys "date,department,category,unit,amount")
      (by with_unfolding_all decide) (by with_unfolding_all decide)).1,
   (c10_comment_header_consumed Dashboard.parseDateISO
      "#date,department,category,unit,amount" ["2024-01-01,Ops,waste,kg,1"]
      (Dashboard.headerKeys "date,department,category,unit,amount")
      (by with_unfolding_all decide) (by with_unfolding_all decide)).2⟩

theorem jsSum_append (l1 l2 : List JsNum) :
    jsSum (l1 ++ l2) = jsAdd (jsSum l1) (jsSum l2) := by
  simp only [jsSum, List.foldl_append]
  exact foldl_jsAdd_acc l2 (jsSum l1)

theorem getValD_nil (k : String) : getValD [] k = some 0 := rfl

theorem getValD_cons (a : String) (w : JsNum) (l : List (String × JsNum)) (k : String) :
    getValD ((a, w) :: l) k = if k = a then w else getValD l k := by
  by_cases h : k = a
  · simp [getValD, List.lookup, h]
  · have hb : (k == a) = false := by simpa using h
    simp [getValD, List.lookup, h, hb]

open Dashboard in
theorem getValD_updateTotals (m : List (String × JsNum)) (k : String) (v : JsNum) :
    ∀ k', getValD (updateTotals m k v) k' =
      if k' = k then jsAdd (if falsy (getValD m k) then some 0 else getValD m k) v
      else getValD m k' := by
  induction m with
  | nil =>
    intro k'
    by_cases hk : k' = k <;> simp [updateTotals, getValD_cons, getValD_nil, hk, falsy]
  | cons p rest ih =>
    obtain ⟨a, w⟩ := p
    intro k'
    by_cases hka : a = k
    · subst hka
      by_cases hk : k' = a <;>
        simp [updateTotals, getValD_cons, hk]
    · simp only [updateTotals, if_neg hka]
      have hk2 : ¬k = a := fun h => hka h.symm
      by_cases hk : k' = a
      · subst hk
        simp [getValD_cons, hka]
      · simp [getValD_cons, hk, ih k', hk2]

open Dashboard in
theorem getValD_updateTotals_congr (m1 m2 : List (String × JsNum)) (k : String) (v : JsNum)
    (h : ∀ k', getValD m1 k' = getValD m2 k') :
    ∀ k', getValD (updateTotals m1 k v) k' = getValD (updateTotals m2 k v) k' := by
  intro k'
  rw [getValD_updateTotals, getValD_updateTotals, h k, h k']

open Dashboard in
theorem getValD_foldTotals_congr (key : Rec → String) (recs : List Rec) :
    ∀ m1 m2 : List (String × JsNum), (∀ k, getValD m1 k = getValD m2 k) →
      ∀ k, getValD (recs.foldl (fun acc r => updateTotals acc (key r) r.emission) m1) k
        = getValD (recs.foldl (fun acc r => updateTotals acc (key r) r.emission) m2) k := by
  induction recs with
  | nil => intro m1 m2 h k; exact h k
  | cons r recs ih =>
    intro m1 m2 h k
    simp only [List.foldl_cons]
    exact ih _ _ (getValD_updateTotals_congr m1 m2 (key r) r.emission h) k

theorem getValD_ne_none (m : List (String × JsNum)) (k : String) (h : finiteVals m) :
    getValD m k ≠ none := by
  induction m with
  | nil => simp [getValD_nil]
  | cons p rest ih =>
    obtain ⟨a, w⟩ := p
    rw [getValD_cons]
    by_cases hk : k = a
    · simpa [hk] using h (a, w) (by simp)
    · simp only [if_neg hk]
      exact ih (fun q hq => h q (by simp [hq]))

open Dashboard in
theorem getValD_updateTotals_zero (m : List (String × JsNum)) (k : String)
    (h : finiteVals m) :
    ∀ k', getValD (updateTotals m k (some 0)) k' = getValD m k' := by
  intro k'
  rw [getValD_updateTotals]
  by_cases hk : k' = k
  · simp only [if_pos hk, hk]
    obtain ⟨q, hq⟩ := Option.ne_none_iff_exists'.mp (getValD_ne_none m k h)
    rw [hq]
    by_cases hf : falsy (some q) = true
    · have : q = 0 := by simpa [falsy] using hf
      simp [hf, this, jsAdd]
    · simp [eq_false_of_ne_true hf, jsAdd_zero_right]
  · simp [hk]

open Dashboard in
theorem foldTotals_finiteVals (key : Rec → String) (recs : List Rec) :
    ∀ m : List (String × JsNum), finiteVals m → (∀ r ∈ recs, r.emission ≠ none) →
      finiteVals (recs.foldl (fun acc r => updateTotals acc (key r) r.emission) m) := by
  induction recs with
  | nil => intro m hm _; exact hm
  | cons r recs ih =>
    intro m hm hfin
    simp only [List.foldl_cons]
    exact ih _ (updateTotals_finiteVals m (key r) r.emission hm (hfin r (by simp)))
      (fun s hs => hfin s (by simp [hs]))

open Dashboard in
theorem mem_keysOf_updateTotals (m : List (String × JsNum)) (k : String) (v : JsNum) :
    ∀ k', k' ∈ keysOf (updateTotals m k v) ↔ k' ∈ keysOf m ∨ k' = k := by
  induction m with
  | nil => intro k'; simp [updateTotals, keysOf]
  | cons p rest ih =>
    obtain ⟨a, w⟩ := p
    intro k'
    by_cases hka : a = k
    · subst hka
      simp [updateTotals, keysOf]
      tauto
    · simp only [keysOf] at ih
      simp [updateTotals, hka, keysOf, ih k']
      tauto

open Dashboard in
theorem mem_keysOf_foldTotals (key : Rec → String) (recs : List Rec) :
    ∀ (m : List (String × JsNum)) (k : String), k ∈ keysOf m →
      k ∈ keysOf (recs.foldl (fun acc r => updateTotals acc (key r) r.emission) m) := by
  induction recs with
  | nil => intro m k hk; exact hk
  | cons r recs ih =>
    intro m k hk
    simp only [List.foldl_cons]
    exact ih _ k ((mem_keysOf_updateTotals m (key r) r.emission k).mpr (Or.inl hk))

/-- C5: a record whose (lowercased) category is not in the emission
factor table gets emission `factor 0 × amount = 0`; inserting it into a
dataset leaves the total emission and every per-category and per-month
aggregate value unchanged, yet its department key appears in the
by-department aggregate. -/
theorem c5_unknown_category_zero_but_attributed (r : Rec) (a : ℚ) (xs ys : List Rec)
    (hcat : List.lookup r.category Dashboard.EMISSION_FACTORS = none)
    (hamt : r.amount = some a)
    (hxs : ∀ p ∈ xs, p.emission ≠ none) :
    (Dashboard.computeEmission r).emission = some 0 ∧
    Dashboard.totalOf (xs ++ Dashboard.computeEmission r :: ys) =
      Dashboard.totalOf (xs ++ ys) ∧
    (∀ k, getValD (Dashboard.catTotals (xs ++ Dashboard.computeEmission r :: ys)) k
        = getValD (Dashboard.catTotals (xs ++ ys)) k) ∧
    (∀ k, getValD (Dashboard.monthlyTotals (xs ++ Dashboard.computeEmission r :: ys)) k
        = getValD (Dashboard.monthlyTotals (xs ++ ys)) k) ∧
    r.department ∈ Dashboard.keysOf (Dashboard.deptTotals
      (xs ++ Dashboard.computeEmission r :: ys)) := by
  have hem : (Dashboard.computeEmission r).emission = some 0 := by
    simp [Dashboard.computeEmission, Dashboard.factorOf, hcat, hamt, jsMulF]
  refine ⟨hem, ?_, ?_, ?_, ?_⟩
  · rw [totalOf_eq_jsSum, totalOf_eq_jsSum]
    simp only [List.map_append, List.map_cons, jsSum_append, jsSum_cons, hem,
      jsAdd_zero_left]
  · intro k
    have hfold := getValD_foldTotals_congr (fun p => p.category) ys
      (Dashboard.updateTotals (Dashboard.catTotals xs)
        (Dashboard.computeEmission r).category (Dashboard.computeEmission r).emission)
      (Dashboard.catTotals xs) ?_ k
    · simpa [Dashboard.catTotals, List.foldl_append] using hfold
    · rw [hem]
      exact getValD_updateTotals_zero (Dashboard.catTotals xs) _
        (foldTotals_finiteVals (fun p => p.category) xs [] (by intro p hp; cases hp) hxs)
  · intro k
    have hfold := getValD_foldTotals_congr (fun p => Dashboard.monthKey p.date) ys
      (Dashboard.updateTotals (Dashboard.monthlyTotals xs)
        (Dashboard.monthKey (Dashboard.computeEmission r).date)
        (Dashboard.computeEmission r).emission)
      (Dashboard.monthlyTotals xs) ?_ k
    · simpa [Dashboard.monthlyTotals, List.foldl_append] using hfold
    · rw [hem]
      exact getValD_updateTotals_zero (Dashboard.monthlyTotals xs) _
        (foldTotals_finiteVals (fun p => Dashboard.monthKey p.date) xs []
          (by intro p hp; cases hp) hxs)
  · have hmem : (Dashboard.computeEmission r).department ∈
        Dashboard.keysOf (Dashboard.updateTotals (Dashboard.deptTotals xs)
          (Dashboard.computeEmission r).department (Dashboard.computeEmission r).emission) :=
      (mem_keysOf_updateTotals _ _ _ _).mpr (Or.inr rfl)
    have := mem_keysOf_foldTotals (fun p => p.department) ys _ _ hmem
    simpa [Dashboard.deptTotals, List.foldl_append, Dashboard.computeEmission] using this

/-- Witness for C5: a `plastics` record amid known-category rows. -/
theorem c5_unknown_category_zero_but_attributed_witness :
    (List.lookup "plastics" Dashboard.EMISSION_FACTORS = none) ∧
    ((⟨⟨2024, 1, 3⟩, "HR", "plastics", some 5, none⟩ : Rec).amount = some 5) ∧
    (∀ p ∈ [(⟨⟨2024, 1, 1⟩, "Ops", "waste", some 1, some 1⟩ : Rec)], p.emission ≠ none) ∧
    (Dashboard.computeEmission ⟨⟨2024, 1, 3⟩, "HR", "plastics", some 5, none⟩).emission
      = some 0 ∧
    Dashboard.totalOf ([⟨⟨2024, 1, 1⟩, "Ops", "waste", some 1, some 1⟩] ++
        Dashboard.computeEmission ⟨⟨2024, 1, 3⟩, "HR", "plastics", some 5, none⟩ :: []) =
      Dashboard.totalOf ([⟨⟨2024, 1, 1⟩, "Ops", "waste", some 1, some 1⟩] ++ []) ∧
    getValD (Dashboard.catTotals ([⟨⟨2024, 1, 1⟩, "Ops", "waste", some 1, some 1⟩] ++
        Dashboard.computeEmission ⟨⟨2024, 1, 3⟩, "HR", "plastics", some 5, none⟩ :: []))
        "plastics" =
      getValD (Dashboard.catTotals ([⟨⟨2024, 1, 1⟩, "Ops", "waste", some 1, some 1⟩] ++ []))
        "plastics" ∧
    "HR" ∈ Dashboard.keysOf (Dashboard.deptTotals
      ([⟨⟨2024, 1, 1⟩, "Ops", "waste", some 1, some 1⟩] ++
        Dashboard.computeEmission ⟨⟨2024, 1, 3⟩, "HR", "plastics", some 5, none⟩ :: [])) := by
  have h := c5_unknown_category_zero_but_attributed
    ⟨⟨2024, 1, 3⟩, "HR", "plastics", some 5, none⟩ 5
    [⟨⟨2024, 1, 1⟩, "Ops", "waste", some 1, some 1⟩] []
    (by with_unfolding_all decide) rfl (by with_unfolding_all decide)
  exact ⟨by with_unfolding_all decide, rfl, by with_unfolding_all decide,
    h.1, h.2.1, h.2.2.1 "plastics", h.2.2.2.2⟩

/-- C9: saving with no prior calculation alerts the user and aborts
with the persisted blob unchanged; with a pending calculation it
appends exactly that one entry at the end of the stored history and
writes it back, leaving all existing entries and their order unchanged
(and, whenever the host JSON round-trips the written list, reloading
yields the old history plus the one new entry). -/
theorem c9_save_appends_exactly_one (stringify : List Script.Entry → String)
    (jp : String → Script.HistParse) (storage : Option String) (e : Script.Entry) :
    Script.saveResult stringify jp none storage = (.promptCalcFirst, storage) ∧
    Script.saveResult stringify jp (some e) storage
      = (.saved, some (stringify (Script.loadHistoryList jp storage ++ [e]))) ∧
    (jp (stringify (Script.loadHistoryList jp storage ++ [e]))
        = .arr (Script.loadHistoryList jp storage ++ [e]) →
      Script.loadHistoryList jp (Script.saveResult stringify jp (some e) storage).2
        = Script.loadHistoryList jp storage ++ [e]) := by
  refine ⟨rfl, rfl, ?_⟩
  intro h
  show (match jp (stringify (Script.loadHistoryList jp storage ++ [e])) with
        | Script.HistParse.arr l => l
        | Script.HistParse.nullv => []
        | Script.HistParse.err => []) = Script.loadHistoryList jp storage ++ [e]
  rw [h]

/-- Witness for C9 with a concrete serializer and parser. -/
theorem c9_save_appends_exactly_one_witness :
    Script.saveResult (fun _ => "S") (fun _ => Script.HistParse.arr [entryA]) none none
      = (.promptCalcFirst, none) ∧
    Script.saveResult (fun _ => "S") (fun _ => Script.HistParse.arr [entryA]) (some entryA) none
      = (.saved, some ((fun _ => "S")
          (Script.loadHistoryList (fun _ => Script.HistParse.arr [entryA]) none ++ [entryA]))) ∧
    Script.loadHistoryList (fun _ => Script.HistParse.arr [entryA])
        (Script.saveResult (fun _ => "S") (fun _ => Script.HistParse.arr [entryA])
          (some entryA) none).2
      = Script.loadHistoryList (fun _ => Script.HistParse.arr [entryA]) none ++ [entryA] :=
  ⟨(c9_save_appends_exactly_one (fun _ => "S") (fun _ => Script.HistParse.arr [entryA])
      none entryA).1,
   (c9_save_appends_exactly_one (fun _ => "S") (fun _ => Script.HistParse.arr [entryA])
      none entryA).2.1,
   (c9_save_appends_exactly_one (fun _ => "S") (fun _ => Script.HistParse.arr [entryA])
      none entryA).2.2 rfl⟩

/-- C8: an absent or corrupt (unparsable) persisted blob loads as the
empty history without crashing, and a subsequent save behaves exactly
as it would on an empty history. -/
theorem c8_corrupt_blob_empty_history (jp : String → Script.HistParse)
    (stringify : List Script.Entry → String) (s : String) (e : Script.Entry)
    (h : jp s = .err) :
    Script.loadHistoryList jp none = [] ∧
    Script.loadHistoryList jp (some s) = [] ∧
    Script.saveResult stringify jp (some e) (some s)
      = Script.saveResult stringify jp (some e) none := by
  refine ⟨rfl, ?_, ?_⟩ <;> simp [Script.loadHistoryList, Script.saveResult, h]

/-- Witness for C8 with a parser that throws on every blob. -/
theorem c8_corrupt_blob_empty_history_witness :
    ((fun _ => Script.HistParse.err) "corrupt" = Script.HistParse.err) ∧
    Script.loadHistoryList (fun _ => Script.HistParse.err) none = [] ∧
    Script.loadHistoryList (fun _ => Script.HistParse.err) (some "corrupt") = [] ∧
    Script.saveResult (fun _ => "S") (fun _ => Script.HistParse.err) (some entryA)
        (some "corrupt")
      = Script.saveResult (fun _ => "S") (fun _ => Script.HistParse.err) (some entryA) none :=
  ⟨rfl,
   (c8_corrupt_blob_empty_history (fun _ => Script.HistParse.err) (fun _ => "S")
      "corrupt" entryA rfl).1,
   (c8_corrupt_blob_empty_history (fun _ => Script.HistParse.err) (fun _ => "S")
      "corrupt" entryA rfl).2.1,
   (c8_corrupt_blob_empty_history (fun _ => Script.HistParse.err) (fun _ => "S")
      "corrupt" entryA rfl).2.2⟩

open Dashboard in
theorem jsGt_eq_true_iff (a b : JsNum) :
    jsGt a b = true ↔ ∃ qa qb, a = some qa ∧ b = some qb ∧ qb < qa := by
  cases a <;> cases b <;> simp [jsGt]

open Dashboard in
theorem insertEntryDesc_perm (x : String × JsNum) (l : List (String × JsNum)) :
    (insertEntryDesc x l).Perm (x :: l) := by
  induction l with
  | nil => exact List.Perm.refl _
  | cons y ys ih =>
    by_cases hc : jsGt y.2 x.2 = true
    · simp only [insertEntryDesc]
      rw [if_pos hc]
      exact (ih.cons y).trans (List.Perm.swap x y ys)
    · simp only [insertEntryDesc]
      rw [if_neg hc]

open Dashboard in
theorem sortEntriesDesc_perm (l : List (String × JsNum)) :
    (sortEntriesDesc l).Perm l := by
  induction l with
  | nil => exact List.Perm.refl _
  | cons x xs ih =>
    exact (insertEntryDesc_perm x (sortEntriesDesc xs)).trans (ih.cons x)

open Dashboard in
theorem pairwise_insertEntryDesc (x : String × JsNum) (l : List (String × JsNum))
    (hx : x.2 ≠ none) (hl : ∀ p ∈ l, p.2 ≠ none)
    (h : l.Pairwise (fun a b => jsGt b.2 a.2 = false)) :
    (insertEntryDesc x l).Pairwise (fun a b => jsGt b.2 a.2 = false) := by
  induction l with
  | nil => simp [insertEntryDesc]
  | cons y ys ih =>
    obtain ⟨qx, hqx⟩ := Option.ne_none_iff_exists'.mp hx
    obtain ⟨qy, hqy⟩ := Option.ne_none_iff_exists'.mp (hl y (by simp))
    rw [List.pairwise_cons] at h
    obtain ⟨hy, hys⟩ := h
    by_cases hc : jsGt y.2 x.2 = true
    · simp only [insertEntryDesc]
      rw [if_pos hc, List.pairwise_cons]
      constructor
      · intro z hz
        rcases List.mem_cons.mp ((insertEntryDesc_perm x ys).mem_iff.mp hz) with rfl | hzy
        · have hlt : qx < qy := by
            rw [hqx, hqy] at hc
            simpa [jsGt] using hc
          rw [hqx, hqy]
          simp only [jsGt, decide_eq_false_iff_not, not_lt]
          exact le_of_lt hlt
        · exact hy z hzy
      · exact ih (fun p hp => hl p (by simp [hp])) hys
    · simp only [insertEntryDesc]
      rw [if_neg hc, List.pairwise_cons]
      constructor
      · intro z hz
        rcases List.mem_cons.mp hz with rfl | hzys
        · exact eq_false_of_ne_true hc
        · obtain ⟨qz, hqz⟩ := Option.ne_none_iff_exists'.mp (hl z (by simp [hzys]))
          have h1 : ¬qx < qy := by
            rw [hqx, hqy] at hc
            simpa [jsGt] using hc
          have h2 : ¬qy < qz := by
            have hzy := hy z hzys
            rw [hqz, hqy] at hzy
            simpa [jsGt, decide_eq_false_iff_not] using hzy
          rw [hqx, hqz]
          simp only [jsGt, decide_eq_false_iff_not, not_lt]
          linarith [le_of_not_lt h1, le_of_not_lt h2]
      · rw [List.pairwise_cons]
        exact ⟨hy, hys⟩

open Dashboard in
theorem sorted_sortEntriesDesc (l : List (String × JsNum)) (hl : ∀ p ∈ l, p.2 ≠ none) :
    (sortEntriesDesc l).Pairwise (fun a b => jsGt b.2 a.2 = false) := by
  induction l with
  | nil => simp [sortEntriesDesc]
  | cons x xs ih =>
    have hxs : ∀ p ∈ xs, p.2 ≠ none := fun p hp => hl p (by simp [hp])
    have hsorted : ∀ p ∈ sortEntriesDesc xs, p.2 ≠ none := fun p hp =>
      hxs p ((sortEntriesDesc_perm xs).mem_iff.mp hp)
    exact pairwise_insertEntryDesc x (sortEntriesDesc xs) (hl x (by simp)) hsorted (ih hxs)

open Dashboard in
theorem filter_insertEntryDesc (x : String × JsNum) (l : List (String × JsNum)) (v : JsNum) :
    (insertEntryDesc x l).filter (fun p => decide (p.2 = v)) =
      if x.2 = v then x :: l.filter (fun p => decide (p.2 = v))
      else l.filter (fun p => decide (p.2 = v)) := by
  induction l with
  | nil => by_cases hv : x.2 = v <;> simp [insertEntryDesc, List.filter, hv]
  | cons y ys ih =>
    by_cases hc : jsGt y.2 x.2 = true
    · simp only [insertEntryDesc]
      rw [if_pos hc]
      by_cases hyv : y.2 = v
      · by_cases hxv : x.2 = v
        · exfalso
          obtain ⟨qa, qb, ha, hb, hba⟩ := (jsGt_eq_true_iff y.2 x.2).mp hc
          rw [hxv] at hb
          rw [hyv] at ha
          rw [ha] at hb
          have hqq : qa = qb := by simpa using hb
          rw [hqq] at hba
          exact lt_irrefl _ hba
        · simp [List.filter_cons, hyv, hxv, ih]
      · simp [List.filter_cons, hyv, ih]
    · simp only [insertEntryDesc]
      rw [if_neg hc]
      by_cases hxv : x.2 = v <;> simp [List.filter_cons, hxv]

open Dashboard in
theorem filter_sortEntriesDesc (l : List (String × JsNum)) (v : JsNum) :
    (sortEntriesDesc l).filter (fun p => decide (p.2 = v))
      = l.filter (fun p => decide (p.2 = v)) := by
  induction l with
  | nil => rfl
  | cons x xs ih =>
    simp only [sortEntriesDesc]
    rw [filter_insertEntryDesc]
    by_cases hxv : x.2 = v <;> simp [List.filter_cons, hxv, ih]

/-- C2 (amended): the entry lists behind the top-department and
top-category cards and the analytics ordering are sorted descending by
summed emission, but ties between equal emission values keep the
first-encounter (key insertion) order — the ECMAScript sort is stable —
not ascending alphabetical order. -/
theorem c2_amended_stable_descending_sort (recs : List Rec)
    (h : ∀ r ∈ recs, r.emission ≠ none) :
    StableDescSorted (Dashboard.sortEntriesDesc (Dashboard.deptTotals recs))
      (Dashboard.deptTotals recs) ∧
    StableDescSorted (Dashboard.sortEntriesDesc (Dashboard.catTotals recs))
      (Dashboard.catTotals recs) ∧
    Dashboard.topDept recs = (Dashboard.sortEntriesDesc (Dashboard.deptTotals recs)).head? ∧
    Dashboard.topCat recs = (Dashboard.sortEntriesDesc (Dashboard.catTotals recs)).head? := by
  have hd : ∀ p ∈ Dashboard.deptTotals recs, p.2 ≠ none :=
    foldTotals_finiteVals (fun r => r.department) recs [] (by intro p hp; cases hp) h
  have hc : ∀ p ∈ Dashboard.catTotals recs, p.2 ≠ none :=
    foldTotals_finiteVals (fun r => r.category) recs [] (by intro p hp; cases hp) h
  exact ⟨⟨sorted_sortEntriesDesc _ hd, sortEntriesDesc_perm _,
      fun v => filter_sortEntriesDesc _ v⟩,
    ⟨sorted_sortEntriesDesc _ hc, sortEntriesDesc_perm _,
      fun v => filter_sortEntriesDesc _ v⟩, rfl, rfl⟩

/-- Witness for the amended C2 on the tie dataset. -/
theorem c2_amended_stable_descending_sort_witness :
    (∀ r ∈ tieRecs, r.emission ≠ none) ∧
    StableDescSorted (Dashboard.sortEntriesDesc (Dashboard.catTotals tieRecs))
      (Dashboard.catTotals tieRecs) ∧
    Dashboard.topCat tieRecs = (Dashboard.sortEntriesDesc (Dashboard.catTotals tieRecs)).head? :=
  ⟨by with_unfolding_all decide,
   (c2_amended_stable_descending_sort tieRecs (by with_unfolding_all decide)).2.1,
   (c2_amended_stable_descending_sort tieRecs (by with_unfolding_all decide)).2.2.2⟩

/-- Counterexample for C2 as stated: on the tie dataset the code's top
category is `waste` (the first-encountered key), while the spec's
alphabetical tie-break picks `transport_train`. -/
theorem c2_counterexample_ties_not_alphabetical :
    Dashboard.topCat tieRecs = some ("waste", some 1) ∧
    topCatAlpha tieRecs = some ("transport_train", some 1) ∧
    Dashboard.topCat tieRecs ≠ topCatAlpha tieRecs := by
  refine ⟨?_, ?_, ?_⟩ <;> with_unfolding_all decide

/-- C3 (amended): the share computation of `renderAnalysis` is not
guarded — when the total emission is `0` each category's share is the
result of the division by zero anyway, a non-finite value (`NaN` or an
infinity, modelled `none`), never the guarded zero of the spec. -/
theorem c3_amended_zero_total_shares_nonfinite (recs : List Rec)
    (h : Dashboard.sumValues (Dashboard.catTotals recs) = some 0) :
    ∀ item ∈ Dashboard.renderAnalysis recs, item.2.1 = none := by
  intro item hitem
  simp only [Dashboard.renderAnalysis, List.mem_map] at hitem
  obtain ⟨p, hp, rfl⟩ := hitem
  show Dashboard.shareOf p.2 (Dashboard.sumValues (Dashboard.catTotals recs)) = none
  rw [h]
  cases p.2 <;> simp [Dashboard.shareOf, jsDiv, jsMulC]

/-- Witness for the amended C3 on the zero-total dataset. -/
theorem c3_amended_zero_total_shares_nonfinite_witness :
    (Dashboard.sumValues (Dashboard.catTotals zeroRecs) = some 0) ∧
    (("plastics", (none : JsNum), Dashboard.generateCue "plastics")
      ∈ Dashboard.renderAnalysis zeroRecs) ∧
    ("plastics", (none : JsNum), Dashboard.generateCue "plastics").2.1 = none :=
  ⟨by with_unfolding_all decide, by with_unfolding_all decide,
   c3_amended_zero_total_shares_nonfinite zeroRecs (by with_unfolding_all decide)
     ("plastics", (none : JsNum), Dashboard.generateCue "plastics")
     (by with_unfolding_all decide)⟩

/-- Counterexample for C3 as stated: on the zero-total dataset the
code's share is the non-finite result of the unguarded division, not
the guarded zero/undefined share the spec describes. -/
theorem c3_counterexample_unguarded_division :
    Dashboard.renderAnalysis zeroRecs
      = [("plastics", none, Dashboard.generateCue "plastics")] ∧
    renderAnalysisGuarded zeroRecs
      = [("plastics", some 0, Dashboard.generateCue "plastics")] ∧
    Dashboard.renderAnalysis zeroRecs ≠ renderAnalysisGuarded zeroRecs := by
  refine ⟨?_, ?_, ?_⟩ <;> with_unfolding_all decide

theorem char_toNat_inj {a b : Char} (h : a.toNat = b.toNat) : a = b :=
  Char.eq_of_val_eq (UInt32.toNat.inj h)

theorem toDigitsCore_eq_natChars :
    ∀ (fuel n : Nat) (ds : List Char), n < fuel →
      Nat.toDigitsCore 10 fuel n ds = natChars n ++ ds := by
  intro fuel
  induction fuel with
  | zero => intro n ds h; exact absurd h (Nat.not_lt_zero n)
  | succ f ih =>
    intro n ds h
    by_cases h0 : n / 10 = 0
    · have hn : n < 10 := by omega
      have hmod : n % 10 = n := Nat.mod_eq_of_lt hn
      rw [natChars]
      simp [Nat.toDigitsCore, h0, hn, hmod]
    · have hn : ¬n < 10 := by omega
      have hlt : n / 10 < f := by
        have h1 : n / 10 < n := Nat.div_lt_self (by omega) (by omega)
        omega
      rw [natChars]
      simp only [Nat.toDigitsCore, h0, if_neg h0, if_neg hn, ih (n / 10) _ hlt,
        List.append_assoc, List.singleton_append]
      simp

theorem toString_data_eq_natChars (n : Nat) : (toString n).data = natChars n := by
  have h : (toString n).data = Nat.toDigitsCore 10 (n + 1) n [] := rfl
  rw [h, toDigitsCore_eq_natChars (n + 1) n [] (Nat.lt_succ_self n), List.append_nil]

theorem digitChar_toNat_lt_iff (a b : Nat) (ha : a < 10) (hb : b < 10) :
    ((Nat.digitChar a).toNat < (Nat.digitChar b).toNat) ↔ a < b := by
  have key : ∀ x y : Fin 10,
      (decide ((Nat.digitChar x.val).toNat < (Nat.digitChar y.val).toNat))
        = decide (x.val < y.val) := by decide
  exact decide_eq_decide.mp (key ⟨a, ha⟩ ⟨b, hb⟩)

theorem digitChar_inj_lt (a b : Nat) (ha : a < 10) (hb : b < 10)
    (h : Nat.digitChar a = Nat.digitChar b) : a = b := by
  have key : ∀ x y : Fin 10,
      (decide (Nat.digitChar x.val = Nat.digitChar y.val)) = decide (x.val = y.val) := by
    decide
  exact (decide_eq_decide.mp (key ⟨a, ha⟩ ⟨b, hb⟩)).mp h

theorem natChars_small (n : Nat) (h : n < 10) : natChars n = [Nat.digitChar n] := by
  rw [natChars, if_pos h]

theorem natChars_four (a b c d : Nat) (ha : 0 < a) (ha9 : a < 10) (hb : b < 10)
    (hc : c < 10) (hd : d < 10) :
    natChars (1000 * a + 100 * b + 10 * c + d)
      = [Nat.digitChar a, Nat.digitChar b, Nat.digitChar c, Nat.digitChar d] := by
  have s3 : natChars (10 * a + b) = [Nat.digitChar a, Nat.digitChar b] := by
    rw [natChars, if_neg (by omega)]
    have e : (10 * a + b) % 10 = b := by omega
    have q : (10 * a + b) / 10 = a := by omega
    rw [e, q, natChars_small a ha9]
    rfl
  have s2 : natChars (100 * a + 10 * b + c)
      = [Nat.digitChar a, Nat.digitChar b, Nat.digitChar c] := by
    rw [natChars, if_neg (by omega)]
    have e : (100 * a + 10 * b + c) % 10 = c := by omega
    have q : (100 * a + 10 * b + c) / 10 = 10 * a + b := by omega
    rw [e, q, s3]
    rfl
  rw [natChars, if_neg (by omega)]
  have e : (1000 * a + 100 * b + 10 * c + d) % 10 = d := by omega
  have q : (1000 * a + 100 * b + 10 * c + d) / 10 = 100 * a + 10 * b + c := by omega
  rw [e, q, s2]
  rfl

open Dashboard in
theorem charsLt_asymm : ∀ l1 l2 : List Char, charsLt l1 l2 = true → charsLt l2 l1 = false := by
  intro l1
  induction l1 with
  | nil =>
    intro l2 h
    cases l2 with
    | nil => simp [charsLt] at h
    | cons b bs => simp [charsLt]
  | cons a l ih =>
    intro l2 h
    cases l2 with
    | nil => simp [charsLt] at h
    | cons b bs =>
      simp only [charsLt] at h ⊢
      by_cases h1 : a.toNat < b.toNat
      · rw [if_neg (by omega), if_pos h1]
      · by_cases h2 : b.toNat < a.toNat
        · rw [if_neg h1, if_pos h2] at h
          exact absurd h (by simp)
        · rw [if_neg h1, if_neg h2] at h
          rw [if_neg h2, if_neg h1]
          exact ih bs h

open Dashboard in
theorem charsLt_eq_of_not_lt : ∀ l1 l2 : List Char,
    charsLt l1 l2 = false → charsLt l2 l1 = false → l1 = l2 := by
  intro l1
  induction l1 with
  | nil =>
    intro l2 h1 _
    cases l2 with
    | nil => rfl
    | cons b bs => simp [charsLt] at h1
  | cons a l ih =>
    intro l2 h1 h2
    cases l2 with
    | nil => simp [charsLt] at h2
    | cons b bs =>
      simp only [charsLt] at h1 h2
      by_cases hab : a.toNat < b.toNat
      · rw [if_pos hab] at h1
        exact absurd h1 (by simp)
      · by_cases hba : b.toNat < a.toNat
        · rw [if_pos hba] at h2
          exact absurd h2 (by simp)
        · rw [if_neg hab, if_neg hba] at h1
          rw [if_neg hba, if_neg hab] at h2
          have hc : a = b := char_toNat_inj (by omega)
          rw [hc, ih bs h1 h2]

open Dashboard in
theorem charsLt_trans : ∀ l1 l2 l3 : List Char,
    charsLt l1 l2 = true → charsLt l2 l3 = true → charsLt l1 l3 = true := by
  intro l1
  induction l1 with
  | nil =>
    intro l2 l3 h1 h2
    cases l2 with
    | nil => simp [charsLt] at h1
    | cons b bs =>
      cases l3 with
      | nil => simp [charsLt] at h2
      | cons c cs => simp [charsLt]
  | cons a l ih =>
    intro l2 l3 h1 h2
    cases l2 with
    | nil => simp [charsLt] at h1
    | cons b bs =>
      cases l3 with
      | nil => simp [charsLt] at h2
      | cons c cs =>
        simp only [charsLt] at h1 h2 ⊢
        by_cases hab : a.toNat < b.toNat
        · by_cases hbc : b.toNat < c.toNat
          · rw [if_pos (by omega : a.toNat < c.toNat)]
          · by_cases hcb : c.toNat < b.toNat
            · rw [if_neg hbc, if_pos hcb] at h2
              exact absurd h2 (by simp)
            · rw [if_pos (by omega : a.toNat < c.toNat)]
        · by_cases hba : b.toNat < a.toNat
          · rw [if_neg hab, if_pos hba] at h1
            exact absurd h1 (by simp)
          · rw [if_neg hab, if_neg hba] at h1
            by_cases hbc : b.toNat < c.toNat
            · rw [if_pos (by omega : a.toNat < c.toNat)]
            · by_cases hcb : c.toNat < b.toNat
              · rw [if_neg hbc, if_pos hcb] at h2
                exact absurd h2 (by simp)
              · rw [if_neg hbc, if_neg hcb] at h2
                rw [if_neg (by omega : ¬a.toNat < c.toNat),
                  if_neg (by omega : ¬c.toNat < a.toNat)]
                exact ih bs cs h1 h2

open Dashboard in
theorem charsLt_append_eq_length : ∀ xs ys u v : List Char, xs.length = ys.length →
    charsLt (xs ++ u) (ys ++ v) = if xs = ys then charsLt u v else charsLt xs ys := by
  intro xs
  induction xs with
  | nil =>
    intro ys u v h
    have hy : ys = [] := by
      cases ys with
      | nil => rfl
      | cons _ _ => simp at h
    subst hy
    simp
  | cons x l ih =>
    intro ys u v h
    cases ys with
    | nil => simp at h
    | cons y ys' =>
      have hlen : l.length = ys'.length := by simpa using h
      have lhs_eq : charsLt (x :: (l ++ u)) (y :: (ys' ++ v)) =
          if x.toNat < y.toNat then true
          else if y.toNat < x.toNat then false
          else charsLt (l ++ u) (ys' ++ v) := rfl
      have rhs_eq : charsLt (x :: l) (y :: ys') =
          if x.toNat < y.toNat then true
          else if y.toNat < x.toNat then false
          else charsLt l ys' := rfl
      by_cases hxy : x.toNat < y.toNat
      · have hne : ¬(x :: l = y :: ys') := by
          intro hcon
          rw [List.cons.injEq] at hcon
          rw [hcon.1] at hxy
          omega
        rw [List.cons_append, List.cons_append, lhs_eq, if_pos hxy, if_neg hne, rhs_eq,
          if_pos hxy]
      · by_cases hyx : y.toNat < x.toNat
        · have hne : ¬(x :: l = y :: ys') := by
            intro hcon
            rw [List.cons.injEq] at hcon
            rw [hcon.1] at hyx
            omega
          rw [List.cons_append, List.cons_append, lhs_eq, if_neg hxy, if_pos hyx, if_neg hne,
            rhs_eq, if_neg hxy, if_pos hyx]
        · have hxyeq : x = y := char_toNat_inj (by omega)
          subst hxyeq
          rw [List.cons_append, List.cons_append, lhs_eq, if_neg hxy, if_neg hyx,
            ih ys' u v hlen]
          by_cases hx : l = ys'
          · rw [if_pos hx, if_pos (by rw [hx])]
          · rw [if_neg hx, if_neg (by simp [hx]), rhs_eq, if_neg hxy, if_neg hyx]

open Dashboard in
theorem charsLt_digit_cons (a b : Nat) (ha : a < 10) (hb : b < 10) (l1 l2 : List Char) :
    charsLt (Nat.digitChar a :: l1) (Nat.digitChar b :: l2) =
      if a < b then true else if b < a then false else charsLt l1 l2 := by
  have lhs_eq : charsLt (Nat.digitChar a :: l1) (Nat.digitChar b :: l2) =
      if (Nat.digitChar a).toNat < (Nat.digitChar b).toNat then true
      else if (Nat.digitChar b).toNat < (Nat.digitChar a).toNat then false
      else charsLt l1 l2 := rfl
  rw [lhs_eq]
  by_cases hab : a < b
  · rw [if_pos ((digitChar_toNat_lt_iff a b ha hb).mpr hab), if_pos hab]
  · by_cases hba : b < a
    · rw [if_neg (fun hcon => hab ((digitChar_toNat_lt_iff a b ha hb).mp hcon)),
        if_pos ((digitChar_toNat_lt_iff b a hb ha).mpr hba), if_neg hab, if_pos hba]
    · rw [if_neg (fun hcon => hab ((digitChar_toNat_lt_iff a b ha hb).mp hcon)),
        if_neg (fun hcon => hba ((digitChar_toNat_lt_iff b a hb ha).mp hcon)),
        if_neg hab, if_neg hba]

theorem natChars_year_eq (y : Nat) (h : 1000 ≤ y) (h' : y ≤ 9999) :
    natChars y = [Nat.digitChar (y / 1000), Nat.digitChar (y / 100 % 10),
      Nat.digitChar (y / 10 % 10), Nat.digitChar (y % 10)] := by
  have hdec : y = 1000 * (y / 1000) + 100 * (y / 100 % 10) + 10 * (y / 10 % 10) + y % 10 := by
    omega
  calc natChars y
      = natChars (1000 * (y / 1000) + 100 * (y / 100 % 10) + 10 * (y / 10 % 10) + y % 10) := by
        rw [← hdec]
    _ = _ := natChars_four _ _ _ _ (by omega) (by omega) (by omega) (by omega) (by omega)

theorem natChars_year_len (y : Nat) (h : 1000 ≤ y) (h' : y ≤ 9999) :
    (natChars y).length = 4 := by
  rw [natChars_year_eq y h h']
  rfl

theorem natChars_year_inj (y1 y2 : Nat) (h1 : 1000 ≤ y1) (h1' : y1 ≤ 9999)
    (h2 : 1000 ≤ y2) (h2' : y2 ≤ 9999) (h : natChars y1 = natChars y2) : y1 = y2 := by
  rw [natChars_year_eq y1 h1 h1', natChars_year_eq y2 h2 h2'] at h
  simp only [List.cons.injEq, and_true] at h
  obtain ⟨e1, e2, e3, e4⟩ := h
  have d1 := digitChar_inj_lt _ _ (by omega) (by omega) e1
  have d2 := digitChar_inj_lt _ _ (by omega) (by omega) e2
  have d3 := digitChar_inj_lt _ _ (by omega) (by omega) e3
  have d4 := digitChar_inj_lt _ _ (by omega) (by omega) e4
  omega

open Dashboard in
theorem charsLt_natChars_year (y1 y2 : Nat) (h1 : 1000 ≤ y1) (h1' : y1 ≤ 9999)
    (h2 : 1000 ≤ y2) (h2' : y2 ≤ 9999) :
    charsLt (natChars y1) (natChars y2) = decide (y1 < y2) := by
  rw [natChars_year_eq y1 h1 h1', natChars_year_eq y2 h2 h2',
    charsLt_digit_cons _ _ (by omega) (by omega),
    charsLt_digit_cons _ _ (by omega) (by omega),
    charsLt_digit_cons _ _ (by omega) (by omega),
    charsLt_digit_cons _ _ (by omega) (by omega)]
  have hnil : charsLt [] [] = false := rfl
  rw [hnil]
  split_ifs <;>
    first
      | exact (decide_eq_true (by omega)).symm
      | exact (decide_eq_false (by omega)).symm

open Dashboard in
theorem month_pad2_lt (m1 m2 : Nat) (hm1 : 1 ≤ m1) (hm1' : m1 ≤ 12)
    (hm2 : 1 ≤ m2) (hm2' : m2 ≤ 12) :
    charsLt (pad2 (toString m1)).data (pad2 (toString m2)).data = decide (m1 < m2) := by
  have key : ∀ x y : Fin 12,
      charsLt (pad2 (toString (x.val + 1))).data (pad2 (toString (y.val + 1))).data
        = decide (x.val + 1 < y.val + 1) := by decide
  have h := key ⟨m1 - 1, by omega⟩ ⟨m2 - 1, by omega⟩
  simp only at h
  rw [show m1 - 1 + 1 = m1 from by omega, show m2 - 1 + 1 = m2 from by omega] at h
  exact h

open Dashboard in
theorem monthKey_data (d : Date) :
    (monthKey d).data = natChars d.year ++ '-' :: (pad2 (toString d.month)).data := by
  have hdash : ("-" : String).data = ['-'] := rfl
  simp [monthKey, String.data_append, toString_data_eq_natChars, hdash]

open Dashboard in
theorem monthKey_lt_iff (d1 d2 : Date)
    (hy1 : 1000 ≤ d1.year) (hy1' : d1.year ≤ 9999) (hm1 : 1 ≤ d1.month) (hm1' : d1.month ≤ 12)
    (hy2 : 1000 ≤ d2.year) (hy2' : d2.year ≤ 9999) (hm2 : 1 ≤ d2.month) (hm2' : d2.month ≤ 12) :
    jsStrLt (monthKey d1) (monthKey d2) = true ↔
      (d1.year < d2.year ∨ (d1.year = d2.year ∧ d1.month < d2.month)) := by
  show charsLt (monthKey d1).data (monthKey d2).data = true ↔ _
  rw [monthKey_data, monthKey_data, charsLt_append_eq_length _ _ _ _
    (by rw [natChars_year_len _ hy1 hy1', natChars_year_len _ hy2 hy2'])]
  by_cases hy : d1.year = d2.year
  · rw [if_pos (by rw [hy])]
    have hdd : charsLt ('-' :: (pad2 (toString d1.month)).data)
        ('-' :: (pad2 (toString d2.month)).data)
        = charsLt (pad2 (toString d1.month)).data (pad2 (toString d2.month)).data := by
      simp [charsLt]
    rw [hdd, month_pad2_lt _ _ hm1 hm1' hm2 hm2']
    simp [hy, decide_eq_true_eq]
  · rw [if_neg (fun hcon => hy (natChars_year_inj _ _ hy1 hy1' hy2 hy2' hcon)),
      charsLt_natChars_year _ _ hy1 hy1' hy2 hy2']
    simp [hy, decide_eq_true_eq]

open Dashboard in
theorem jsStrLt_asymm {s t : String} (h : jsStrLt s t = true) : jsStrLt t s = false :=
  charsLt_asymm s.data t.data h

open Dashboard in
theorem insertStr_perm (x : String) (l : List String) : (insertStr x l).Perm (x :: l) := by
  induction l with
  | nil => exact List.Perm.refl _
  | cons y ys ih =>
    by_cases hc : jsStrLt y x = true
    · simp only [insertStr]
      rw [if_pos hc]
      exact (ih.cons y).trans (List.Perm.swap x y ys)
    · simp only [insertStr]
      rw [if_neg hc]

open Dashboard in
theorem sortStrings_perm (l : List String) : (sortStrings l).Perm l := by
  induction l with
  | nil => exact List.Perm.refl _
  | cons x xs ih => exact (insertStr_perm x (sortStrings xs)).trans (ih.cons x)

open Dashboard in
theorem pairwise_insertStr (x : String) (l : List String)
    (h : l.Pairwise (fun a b => jsStrLt b a = false)) :
    (insertStr x l).Pairwise (fun a b => jsStrLt b a = false) := by
  induction l with
  | nil => simp [insertStr]
  | cons y ys ih =>
    rw [List.pairwise_cons] at h
    obtain ⟨hy, hys⟩ := h
    by_cases hc : jsStrLt y x = true
    · simp only [insertStr]
      rw [if_pos hc, List.pairwise_cons]
      refine ⟨?_, ih hys⟩
      intro z hz
      rcases List.mem_cons.mp ((insertStr_perm x ys).mem_iff.mp hz) with rfl | hzy
      · exact jsStrLt_asymm hc
      · exact hy z hzy
    · simp only [insertStr]
      rw [if_neg hc, List.pairwise_cons]
      have hcf : jsStrLt y x = false := eq_false_of_ne_true hc
      refine ⟨?_, List.pairwise_cons.mpr ⟨hy, hys⟩⟩
      intro z hz
      rcases List.mem_cons.mp hz with rfl | hzys
      · exact hcf
      · have hzy : jsStrLt z y = false := hy z hzys
        by_cases hyz : jsStrLt y z = true
        · cases hzx : jsStrLt z x with
          | false => rfl
          | true => exact absurd (charsLt_trans y.data z.data x.data hyz hzx) hc
        · have heq : y.data = z.data :=
            charsLt_eq_of_not_lt y.data z.data (eq_false_of_ne_true hyz) hzy
          show charsLt z.data x.data = false
          rw [← heq]
          exact hcf

open Dashboard in
theorem sorted_sortStrings (l : List String) :
    (sortStrings l).Pairwise (fun a b => jsStrLt b a = false) := by
  induction l with
  | nil => simp [sortStrings]
  | cons x xs ih => exact pairwise_insertStr x (sortStrings xs) ih

open Dashboard in
theorem mem_keysOf_foldTotals_iff (key : Rec → String) (recs : List Rec) :
    ∀ (m : List (String × JsNum)) (k : String),
      k ∈ keysOf (recs.foldl (fun acc r => updateTotals acc (key r) r.emission) m)
        ↔ k ∈ keysOf m ∨ ∃ r ∈ recs, key r = k := by
  induction recs with
  | nil => intro m k; simp
  | cons r recs ih =>
    intro m k
    simp only [List.foldl_cons]
    rw [ih (updateTotals m (key r) r.emission) k, mem_keysOf_updateTotals]
    constructor
    · rintro ((hm | hk) | ⟨r', hr', hkey⟩)
      · exact Or.inl hm
      · exact Or.inr ⟨r, by simp, hk.symm⟩
      · exact Or.inr ⟨r', by simp [hr'], hkey⟩
    · rintro (hm | ⟨r', hr', hkey⟩)
      · exact Or.inl (Or.inl hm)
      · rcases List.mem_cons.mp hr' with rfl | hr'
        · exact Or.inl (Or.inr hkey.symm)
        · exact Or.inr ⟨r', hr', hkey⟩

/-- C7: the trend chart keys each record by its `YYYY-MM` month string
(month zero-padded to two digits) and emits the buckets sorted
lexicographically ascending by code units; on four-digit-year dates
with months `1..12` this lexicographic order coincides with
chronological order. -/
theorem c7_month_buckets_sorted_chronologically (recs : List Rec) :
    (Dashboard.trendLabels recs).Pairwise (fun a b => Dashboard.jsStrLt b a = false) ∧
    (∀ s, s ∈ Dashboard.trendLabels recs ↔
      ∃ r ∈ recs, Dashboard.monthKey r.date = s) ∧
    (∀ d1 d2 : Date, 1000 ≤ d1.year → d1.year ≤ 9999 → 1 ≤ d1.month → d1.month ≤ 12 →
      1000 ≤ d2.year → d2.year ≤ 9999 → 1 ≤ d2.month → d2.month ≤ 12 →
      (Dashboard.jsStrLt (Dashboard.monthKey d1) (Dashboard.monthKey d2) = true ↔
        (d1.year < d2.year ∨ (d1.year = d2.year ∧ d1.month < d2.month)))) := by
  refine ⟨sorted_sortStrings _, ?_, ?_⟩
  · intro s
    show s ∈ Dashboard.sortStrings (Dashboard.keysOf (Dashboard.monthlyTotals recs)) ↔ _
    rw [(sortStrings_perm _).mem_iff]
    have h := mem_keysOf_foldTotals_iff (fun r => Dashboard.monthKey r.date) recs [] s
    simpa [Dashboard.keysOf, Dashboard.monthlyTotals] using h
  · intro d1 d2 hy1 hy1' hm1 hm1' hy2 hy2' hm2 hm2'
    exact monthKey_lt_iff d1 d2 hy1 hy1' hm1 hm1' hy2 hy2' hm2 hm2'

/-- Witness for C7 on the example dataset and a year-crossing date pair. -/
theorem c7_month_buckets_sorted_chronologically_witness :
    (Dashboard.trendLabels sampleRecs).Pairwise
      (fun a b => Dashboard.jsStrLt b a = false) ∧
    ("2024-01" ∈ Dashboard.trendLabels sampleRecs ↔
      ∃ r ∈ sampleRecs, Dashboard.monthKey r.date = "2024-01") ∧
    (Dashboard.jsStrLt (Dashboard.monthKey ⟨2023, 12, 1⟩) (Dashboard.monthKey ⟨2024, 1, 1⟩)
        = true ↔
      ((Date.mk 2023 12 1).year < (Date.mk 2024 1 1).year ∨
        ((Date.mk 2023 12 1).year = (Date.mk 2024 1 1).year ∧
          (Date.mk 2023 12 1).month < (Date.mk 2024 1 1).month))) :=
  ⟨(c7_month_buckets_sorted_chronologically sampleRecs).1,
   (c7_month_buckets_sorted_chronologically sampleRecs).2.1 "2024-01",
   (c7_month_buckets_sorted_chronologically sampleRecs).2.2 ⟨2023, 12, 1⟩ ⟨2024, 1, 1⟩
     (by decide) (by decide) (by decide) (by decide)
     (by decide) (by decide) (by decide) (by decide)⟩

end EcoCue
